import Mathlib

/-!
Formal model of `src/partitioning_reducer.py`.

The repository is a single-file grouping/reduction container, `GroupingReducer`.
Its internal mapping is a Python `dict`, which preserves insertion order of
first-seen keys, updates in place on assignment to a present key, and appends
at the end on assignment to an absent key.  We model the `dict` as an
insertion-ordered association list `List (GK × RV)` together with the three
operations the source uses: subscript read (`dictLookup`), subscript
assignment (`dictSet`), and `dict.get` (`dictGet`).

Three embeddings are developed, each faithful to a different aspect of the
source:
* a pure embedding (`GroupingReducer`) for the configuration-function-as-pure-
  function fragment: construction, `add`, `addAll`, `groupBy`, `reusable`,
  `__getitem__`, `get`, `__eq__`, `__ne__`;
* an exception-aware embedding (`GroupingReducerE`) in which the three
  caller-supplied configuration functions may raise, mirroring the
  `try`/`except KeyError` structure of `GroupingReducer.add`;
* a heap embedding (`Heap`, `GrouperD`) of the *default* configuration
  (`groupBy=identity`, `reducer=addToList`, `starter=list`), in which Python
  list objects live on an explicit heap so that the in-place mutation
  performed by `addToList` (`acc.append(item); return acc`) and the shallow
  `dict.copy()` of `currentData` are visible, as is the definition-time
  shared default argument `initialValues=[]` of `__init__`.
-/

namespace PartitioningReducer

/-- Python `dict` subscript read `d[key]`, on the insertion-ordered
association-list model: the value bound to the first (and, for an actual
`dict`, only) occurrence of `key`. -/
def dictLookup {GK RV : Type} [DecidableEq GK] : List (GK × RV) → GK → Option RV
  | [], _ => none
  | p :: rest, key => if p.1 = key then some p.2 else dictLookup rest key

/-- Python `dict` subscript assignment `d[key] = v`: rebinds `key` in place
(keeping its position) when present, appends the new binding at the end when
absent. -/
def dictSet {GK RV : Type} [DecidableEq GK] : List (GK × RV) → GK → RV → List (GK × RV)
  | [], key, v => [(key, v)]
  | p :: rest, key, v => if p.1 = key then (key, v) :: rest else p :: dictSet rest key v

/-- The keys of the mapping, in insertion order (`d.keys()`). -/
def keysOf {GK RV : Type} (d : List (GK × RV)) : List GK := d.map Prod.fst

/-- The state of a `GroupingReducer`: the `data` dict plus the three
configuration functions fixed at construction
(`self.key_transform`, `self.reducer`, `self.starter`). -/
structure GroupingReducer (Orig GK RV : Type) where
  data : List (GK × RV)
  key_transform : Orig → GK
  reducer : RV → Orig → RV
  starter : Unit → RV

namespace GroupingReducer

variable {Orig GK RV : Type}

/-- Embedding of `GroupingReducer.add(item)` (lines 118–127) for pure configuration
functions:

    key = self.key_transform(item)
    try:
        self.data[key] = self.reducer(self.data[key], item)
    except KeyError:
        self.data[key] = self.reducer(self.starter(), item)

With pure configuration functions the only `KeyError` the `try` block can
raise is the subscript read on an absent key, so the two branches are exactly
the present/absent cases of `dictLookup`. -/
def add [DecidableEq GK] (g : GroupingReducer Orig GK RV) (item : Orig) :
    GroupingReducer Orig GK RV :=
  let key := g.key_transform item
  match dictLookup g.data key with
  | some cur => { g with data := dictSet g.data key (g.reducer cur item) }
  | none => { g with data := dictSet g.data key (g.reducer (g.starter ()) item) }

/-- Embedding of `GroupingReducer.addAll(items)` (lines 129–135): `for item in items: self.add(item)`. -/
def addAll [DecidableEq GK] (g : GroupingReducer Orig GK RV) : List Orig → GroupingReducer Orig GK RV
  | [] => g
  | item :: items => (g.add item).addAll items

/-- Embedding of `GroupingReducer.__init__` (lines 50–69): `self.data = dict()`, store the
three configuration functions, then `self.addAll(initialValues)`. -/
def construct [DecidableEq GK] (groupBy : Orig → GK) (reducer : RV → Orig → RV)
    (starter : Unit → RV) (initialValues : List Orig) : GroupingReducer Orig GK RV :=
  (GroupingReducer.mk [] groupBy reducer starter).addAll initialValues

@[simp]
theorem add_key_transform [DecidableEq GK] (g : GroupingReducer Orig GK RV) (item : Orig) :
    (g.add item).key_transform = g.key_transform := by
  cases h : dictLookup g.data (g.key_transform item) <;> simp [add, h]

@[simp]
theorem add_reducer [DecidableEq GK] (g : GroupingReducer Orig GK RV) (item : Orig) :
    (g.add item).reducer = g.reducer := by
  cases h : dictLookup g.data (g.key_transform item) <;> simp [add, h]

@[simp]
theorem add_starter [DecidableEq GK] (g : GroupingReducer Orig GK RV) (item : Orig) :
    (g.add item).starter = g.starter := by
  cases h : dictLookup g.data (g.key_transform item) <;> simp [add, h]

end GroupingReducer

theorem dictLookup_dictSet {GK RV : Type} [DecidableEq GK] (d : List (GK × RV)) (key k : GK)
    (v : RV) :
    dictLookup (dictSet d key v) k = if key = k then some v else dictLookup d k := by
  induction d with
  | nil => simp [dictSet, dictLookup]
  | cons p rest ih =>
    by_cases hp : p.1 = key
    · simp only [dictSet, hp, if_pos]
      by_cases hk : key = k <;> simp [dictLookup, hk, hp]
    · simp only [dictSet, hp, if_neg, not_false_iff]
      by_cases hpk : p.1 = k
      · have : ¬ key = k := fun h => hp (h ▸ hpk)
        simp [dictLookup, hpk, this]
      · simp [dictLookup, hpk, ih]

/-- The effect of a single `add` on an arbitrary lookup. -/
theorem GroupingReducer.add_lookup {Orig GK RV : Type} [DecidableEq GK]
    (g : GroupingReducer Orig GK RV) (item : Orig) (k : GK) :
    dictLookup (g.add item).data k =
      if g.key_transform item = k then
        some (g.reducer ((dictLookup g.data (g.key_transform item)).getD (g.starter ())) item)
      else dictLookup g.data k := by
  cases h : dictLookup g.data (g.key_transform item) <;>
    simp [add, h, dictLookup_dictSet]

/-- One step of the per-key left fold seen through `Option`: an absent slot is
seeded by `starter()` before the reducer is applied. -/
def foldStep {Orig RV : Type} (r : RV → Orig → RV) (s : Unit → RV) :
    Option RV → Orig → Option RV :=
  fun o it => some (r (o.getD (s ())) it)

theorem foldStep_some {Orig RV : Type} (r : RV → Orig → RV) (s : Unit → RV) (l : List Orig) :
    ∀ v : RV, l.foldl (foldStep r s) (some v) = some (l.foldl r v) := by
  induction l with
  | nil => intro v; rfl
  | cons it rest ih => intro v; simp [List.foldl, foldStep, ih]

theorem foldStep_none {Orig RV : Type} (r : RV → Orig → RV) (s : Unit → RV) (l : List Orig) :
    l.foldl (foldStep r s) none =
      if l.isEmpty then none else some (l.foldl r (s ())) := by
  cases l with
  | nil => rfl
  | cons it rest => simp [List.foldl, foldStep, foldStep_some]

/-- The effect of `addAll` on an arbitrary lookup: the slot at `k` is the
`Option`-level left fold of the reducer over exactly the added items whose
extracted key is `k`, in order. -/
theorem GroupingReducer.addAll_lookup {Orig GK RV : Type} [DecidableEq GK] (items : List Orig) :
    ∀ (g : GroupingReducer Orig GK RV) (k : GK),
    dictLookup (g.addAll items).data k =
      (items.filter fun it => decide (g.key_transform it = k)).foldl
        (foldStep g.reducer g.starter) (dictLookup g.data k) := by
  induction items with
  | nil => intro g k; rfl
  | cons it rest ih =>
    intro g k
    have hstep : dictLookup (g.addAll (it :: rest)).data k
        = dictLookup ((g.add it).addAll rest).data k := rfl
    rw [hstep, ih (g.add it) k, add_key_transform, add_reducer, add_starter,
      GroupingReducer.add_lookup]
    by_cases hk : g.key_transform it = k
    · simp [hk, List.filter, foldStep]
    · simp [hk, List.filter]

/-- C1, main form: the slot of the constructed container at key `k`. -/
theorem GroupingReducer.construct_lookup {Orig GK RV : Type} [DecidableEq GK]
    (f : Orig → GK) (r : RV → Orig → RV) (s : Unit → RV) (items : List Orig) (k : GK) :
    dictLookup (construct f r s items).data k =
      if (items.filter fun it => decide (f it = k)).isEmpty then none
      else some ((items.filter fun it => decide (f it = k)).foldl r (s ())) := by
  have h := GroupingReducer.addAll_lookup items (GroupingReducer.mk [] f r s) k
  simpa [construct, dictLookup, foldStep_none] using h

/-- C1: after constructing a `GroupingReducer` from any finite sequence of
items (construction runs every item through `add`, and `add`/`addAll` are the
only insertion paths), a key is present in `data` exactly when some inserted
item extracts to it, and the value stored at each present key is the left fold
of the reducer, in insertion order, over exactly the inserted items whose
extracted key is that key, seeded with one call to `starter()`. -/
theorem c1_grouping_invariant {Orig GK RV : Type} [DecidableEq GK]
    (f : Orig → GK) (r : RV → Orig → RV) (s : Unit → RV) (items : List Orig) (k : GK) :
    ((dictLookup (GroupingReducer.construct f r s items).data k).isSome ↔
        ∃ it ∈ items, f it = k)
    ∧ dictLookup (GroupingReducer.construct f r s items).data k =
        (if (items.filter fun it => decide (f it = k)).isEmpty then none
         else some ((items.filter fun it => decide (f it = k)).foldl r (s ()))) := by
  refine ⟨?_, GroupingReducer.construct_lookup f r s items k⟩
  rw [GroupingReducer.construct_lookup f r s items k]
  constructor
  · intro hsome
    by_contra hno
    push_neg at hno
    have hfil : (items.filter fun it => decide (f it = k)) = [] := by
      rw [List.filter_eq_nil_iff]
      intro it hmem
      simpa using hno it hmem
    rw [hfil] at hsome
    simp at hsome
  · rintro ⟨it, hmem, hfk⟩
    have hne : (items.filter fun it => decide (f it = k)) ≠ [] := by
      intro hnil
      have := List.filter_eq_nil_iff.mp hnil it hmem
      simp [hfk] at this
    simp [List.isEmpty_iff, hne]

/-- C2: a single `add(item)` computes `key = key_transform(item)`; when `key`
is absent it initializes the slot to `reducer(starter(), item)`, when present
it updates the slot to `reducer(currentValue, item)`, and every other key's
slot is untouched. -/
theorem c2_single_insert {Orig GK RV : Type} [DecidableEq GK]
    (g : GroupingReducer Orig GK RV) (item : Orig) :
    (dictLookup g.data (g.key_transform item) = none →
        dictLookup (g.add item).data (g.key_transform item) =
          some (g.reducer (g.starter ()) item))
    ∧ (∀ cur, dictLookup g.data (g.key_transform item) = some cur →
        dictLookup (g.add item).data (g.key_transform item) =
          some (g.reducer cur item))
    ∧ (∀ k, k ≠ g.key_transform item →
        dictLookup (g.add item).data k = dictLookup g.data k) := by
  refine ⟨?_, ?_, ?_⟩
  · intro h
    rw [GroupingReducer.add_lookup, if_pos rfl, h]
    rfl
  · intro cur h
    rw [GroupingReducer.add_lookup, if_pos rfl, h]
    rfl
  · intro k hk
    rw [GroupingReducer.add_lookup, if_neg (fun h => hk h.symm)]

/-- Witness for C2 at a concrete container: identity keys, sum reducer. -/
theorem c2_single_insert_witness :
    dictLookup (GroupingReducer.construct (fun n : Nat => n) (fun a b => a + b)
        (fun _ => 0) [1, 2, 1]).data 2 = some 2
    ∧ dictLookup ((GroupingReducer.construct (fun n : Nat => n) (fun a b => a + b)
        (fun _ => 0) [1, 2, 1]).add 2).data 2 = some 4
    ∧ dictLookup ((GroupingReducer.construct (fun n : Nat => n) (fun a b => a + b)
        (fun _ => 0) [1, 2, 1]).add 2).data 1 = some 2 := by
  refine ⟨by decide, ?_, ?_⟩
  · exact (c2_single_insert (GroupingReducer.construct (fun n : Nat => n)
      (fun a b => a + b) (fun _ => 0) [1, 2, 1]) 2).2.1 2 (by decide)
  · exact (c2_single_insert (GroupingReducer.construct (fun n : Nat => n)
      (fun a b => a + b) (fun _ => 0) [1, 2, 1]) 2).2.2 1 (by decide)

/-- The spec's description of `insertAll`: repeated single inserts, one per
item, in iteration order. -/
def repeatedAdd {Orig GK RV : Type} [DecidableEq GK] (g : GroupingReducer Orig GK RV)
    (items : List Orig) : GroupingReducer Orig GK RV :=
  items.foldl (fun acc it => acc.add it) g

/-- C7: from any starting container state, `addAll(items)` produces exactly
the same final mapping as calling `add(item)` once per item in the same
iteration order. -/
theorem c7_addAll_refines_repeated_add {Orig GK RV : Type} [DecidableEq GK]
    (g : GroupingReducer Orig GK RV) (items : List Orig) :
    (g.addAll items).data = (repeatedAdd g items).data := by
  induction items generalizing g with
  | nil => rfl
  | cons it rest ih => exact ih (g.add it)

/-- The `GroupingReducer.groupBy` classmethod (lines 71–91): build a
`GroupingReducer` from the items and configuration, then return only its
underlying `data` mapping. -/
def GroupingReducer.groupBy {Orig GK RV : Type} [DecidableEq GK] (values : List Orig)
    (f : Orig → GK) (r : RV → Orig → RV) (s : Unit → RV) : List (GK × RV) :=
  (GroupingReducer.construct f r s values).data

/-- The `GroupingReducer.reusable` classmethod (lines 93–112): return the closure
`function(values) = GroupingReducer.groupBy(values, groupBy=…, reducer=…, starter=…)`
with the configuration baked in. -/
def GroupingReducer.reusable {Orig GK RV : Type} [DecidableEq GK]
    (f : Orig → GK) (r : RV → Orig → RV) (s : Unit → RV) : List Orig → List (GK × RV) :=
  fun values => GroupingReducer.groupBy values f r s

/-- C8: the function returned by `reusable(config)`, applied to each of two
(possibly different) datasets, returns exactly `groupBy(dataset, config)` for
that dataset, and each invocation behaves as a fresh construction from the
empty mapping — the result of the second invocation does not depend on the
first dataset in any way. -/
theorem c8_reusable_stateless {Orig GK RV : Type} [DecidableEq GK]
    (f : Orig → GK) (r : RV → Orig → RV) (s : Unit → RV) (ds1 ds2 : List Orig) :
    GroupingReducer.reusable f r s ds1 = GroupingReducer.groupBy ds1 f r s
    ∧ GroupingReducer.reusable f r s ds2 = GroupingReducer.groupBy ds2 f r s
    ∧ GroupingReducer.reusable f r s ds2 =
        ((GroupingReducer.mk [] f r s).addAll ds2).data := by
  exact ⟨rfl, rfl, rfl⟩

/-- The exception kinds relevant to the source: Python's `KeyError` (raised by
`dict` subscript on an absent key and caught by `add`), `TypeError` (raised by
a keyword call to a positional-only builtin), and arbitrary caller-raised
exceptions, tagged by a number. -/
inductive PyErr where
  | keyError : PyErr
  | typeError : PyErr
  | custom : Nat → PyErr
deriving DecidableEq

/-- Embedding of `GroupingReducer.__getitem__` (lines 137–138): `return self.data[key]` —
the `dict` subscript raises `KeyError` when the key is absent. -/
def GroupingReducer.getitem {Orig GK RV : Type} [DecidableEq GK]
    (g : GroupingReducer Orig GK RV) (key : GK) : Except PyErr RV :=
  match dictLookup g.data key with
  | some v => Except.ok v
  | none => Except.error PyErr.keyError

/-- Model of calling CPython `dict.get(key, default=None, /)`: its parameters
are positional-only, so a call that passes `default` by keyword raises
`TypeError: get() takes no keyword arguments` before any lookup happens;
a positional call returns the stored value, or `default` when absent.
`keywordCall` records which call syntax was used. -/
def dictGet {GK RV : Type} [DecidableEq GK] (d : List (GK × RV)) (key : GK) (default : RV)
    (keywordCall : Bool) : Except PyErr RV :=
  if keywordCall then Except.error PyErr.typeError
  else Except.ok ((dictLookup d key).getD default)

/-- Embedding of `GroupingReducer.get` (lines 158–159):
`return self.data.get(key, default=default)` — the source passes `default`
to `dict.get` with keyword syntax. -/
def GroupingReducer.get {Orig GK RV : Type} [DecidableEq GK]
    (g : GroupingReducer Orig GK RV) (key : GK) (default : RV) : Except PyErr RV :=
  dictGet g.data key default true

/-- C3 (code bug): the defaulted lookup `get(key, default)` raises `TypeError`
on every call — `dict.get` is positional-only and the source passes `default`
by keyword — so it never returns either the stored value or the fallback; a
positional call (the evident intent) would have returned the stored value
when present and the fallback when absent. -/
theorem c3_get_always_raises {Orig GK RV : Type} [DecidableEq GK]
    (g : GroupingReducer Orig GK RV) (key : GK) (default : RV) :
    g.get key default = Except.error PyErr.typeError
    ∧ dictGet g.data key default false =
        Except.ok ((dictLookup g.data key).getD default) := by
  exact ⟨rfl, rfl⟩

/-- C4 (code bug, exclusivity clause): on a concrete container (identity keys,
sum reducer, items `[1, 2, 1]`), strict lookup behaves as the claim says —
`KeyError` exactly on an absent key, the reduced value on a present key — but
`KeyError` from strict lookup is not the only error the component raises:
`get` raises `TypeError`, a different error, on the very same absent key. -/
theorem c4_strict_lookup_not_only_error :
    (GroupingReducer.construct (fun n : Nat => n) (fun a b => a + b)
        (fun _ => 0) [1, 2, 1]).getitem 1 = Except.ok 2
    ∧ (GroupingReducer.construct (fun n : Nat => n) (fun a b => a + b)
        (fun _ => 0) [1, 2, 1]).getitem 7 = Except.error PyErr.keyError
    ∧ (GroupingReducer.construct (fun n : Nat => n) (fun a b => a + b)
        (fun _ => 0) [1, 2, 1]).get 7 0 = Except.error PyErr.typeError
    ∧ PyErr.typeError ≠ PyErr.keyError := by
  exact ⟨rfl, rfl, rfl, by decide⟩

/-- The exception-aware embedding: the three caller-supplied configuration
functions may raise any `PyErr`. -/
structure GroupingReducerE (Orig GK RV : Type) where
  data : List (GK × RV)
  key_transform : Orig → Except PyErr GK
  reducer : RV → Orig → Except PyErr RV
  starter : Unit → Except PyErr RV

/-- The `dict` subscript read as the source sees it inside `try`: `KeyError`
on an absent key. -/
def dictSubscript {GK RV : Type} [DecidableEq GK] (d : List (GK × RV)) (key : GK) :
    Except PyErr RV :=
  match dictLookup d key with
  | some v => Except.ok v
  | none => Except.error PyErr.keyError

/-- The body of the `try:` block in `add` (line 125), up to the assignment:
`self.reducer(self.data[key], item)` — the subscript read runs first and its
`KeyError` (or the reducer's own exception) flows out of the block. -/
def tryBody {Orig GK RV : Type} [DecidableEq GK] (g : GroupingReducerE Orig GK RV)
    (key : GK) (item : Orig) : Except PyErr RV :=
  match dictSubscript g.data key with
  | Except.error e => Except.error e
  | Except.ok cur => g.reducer cur item

/-- Embedding of `GroupingReducer.add(item)` (lines 118–127) with possibly-raising
configuration functions, following the source's control flow exactly:
`key = self.key_transform(item)` runs outside the `try` (its exceptions
propagate); the `try` body evaluates `self.reducer(self.data[key], item)`
and assigns on success; `except KeyError` catches any `KeyError` raised in
the `try` body — whichever of the subscript or the reducer raised it — and
then evaluates `self.reducer(self.starter(), item)`, whose own exceptions
propagate; every `Except.error e => Except.error e` arm below is an uncaught
exception propagating out of `add`. -/
def GroupingReducerE.add {Orig GK RV : Type} [DecidableEq GK]
    (g : GroupingReducerE Orig GK RV) (item : Orig) :
    Except PyErr (GroupingReducerE Orig GK RV) :=
  match g.key_transform item with
  | Except.error e => Except.error e
  | Except.ok key =>
    match tryBody g key item with
    | Except.ok v => Except.ok { g with data := dictSet g.data key v }
    | Except.error PyErr.keyError =>
      match g.starter () with
      | Except.error e => Except.error e
      | Except.ok s =>
        match g.reducer s item with
        | Except.error e => Except.error e
        | Except.ok v => Except.ok { g with data := dictSet g.data key v }
    | Except.error e => Except.error e

/-- C5 counterexample container: key 5 is present with reduced value 1, and
the caller-supplied reducer raises `KeyError` whenever its accumulator
argument is 1. -/
def gC5 : GroupingReducerE Nat Nat Nat where
  data := [(5, 1)]
  key_transform := fun n => Except.ok n
  reducer := fun acc it =>
    if acc = 1 then Except.error PyErr.keyError else Except.ok (acc + it)
  starter := fun _ => Except.ok 0

/-- C5 counterexample: key 5 is present, the caller-supplied reducer raises
`KeyError` on the stored value — and `add(5)` does not propagate it: the
`except KeyError:` handler in `add` swallows the reducer's exception and
quietly reinitializes the slot with `reducer(starter(), item)`, so the call
succeeds with the slot rebound to `0 + 5 + ... = 5`. -/
theorem c5_counterexample :
    dictLookup gC5.data 5 = some 1
    ∧ gC5.reducer 1 5 = Except.error PyErr.keyError
    ∧ (gC5.add 5).map GroupingReducerE.data = Except.ok [(5, 5)] := by
  exact ⟨rfl, rfl, rfl⟩

/-- C5 amended: an exception raised by `key_transform` always propagates
unchanged; when the key is absent, exceptions of `starter` and of the reducer
propagate unchanged; when the key is present, a non-`KeyError` exception of
the reducer propagates unchanged — but a `KeyError` raised by the reducer on
a present key is caught by `add`'s `except KeyError:` handler instead of
propagating (the behavior refuted by the counterexample). -/
theorem c5_amended_propagation {Orig GK RV : Type} [DecidableEq GK]
    (g : GroupingReducerE Orig GK RV) (item : Orig) :
    (∀ e, g.key_transform item = Except.error e → g.add item = Except.error e)
    ∧ (∀ key, g.key_transform item = Except.ok key → dictLookup g.data key = none →
        (∀ e, g.starter () = Except.error e → g.add item = Except.error e)
        ∧ (∀ sv e, g.starter () = Except.ok sv → g.reducer sv item = Except.error e →
            g.add item = Except.error e))
    ∧ (∀ key cur e, g.key_transform item = Except.ok key →
        dictLookup g.data key = some cur → g.reducer cur item = Except.error e →
        e ≠ PyErr.keyError → g.add item = Except.error e) := by
  refine ⟨?_, ?_, ?_⟩
  · intro e he
    simp [GroupingReducerE.add, he]
  · intro key hkey habs
    constructor
    · intro e he
      simp [GroupingReducerE.add, hkey, tryBody, dictSubscript, habs, he]
    · intro sv e hs hr
      simp [GroupingReducerE.add, hkey, tryBody, dictSubscript, habs, hs, hr]
  · intro key cur e hkey hcur hr hne
    have hbody : tryBody g key item = Except.error e := by
      simp [tryBody, dictSubscript, hcur, hr]
    cases e with
    | keyError => exact absurd rfl hne
    | typeError => simp [GroupingReducerE.add, hkey, hbody]
    | custom n => simp [GroupingReducerE.add, hkey, hbody]

/-- Witness for the amended C5 at concrete inputs: a `key_transform` that
raises `custom 7` makes `add` raise `custom 7`, and on an absent key a
reducer that raises `custom 3` makes `add` raise `custom 3`. -/
theorem c5_amended_propagation_witness :
    GroupingReducerE.add
        (GroupingReducerE.mk ([] : List (Nat × Nat)) (fun _ : Nat => Except.error (PyErr.custom 7))
          (fun acc it : Nat => Except.ok (acc + it)) (fun _ => Except.ok 0)) 4
      = Except.error (PyErr.custom 7)
    ∧ GroupingReducerE.add
        (GroupingReducerE.mk ([] : List (Nat × Nat)) (fun n : Nat => Except.ok n)
          (fun _ _ : Nat => Except.error (PyErr.custom 3)) (fun _ => Except.ok 0)) 4
      = Except.error (PyErr.custom 3) := by
  constructor
  · exact (c5_amended_propagation
      (GroupingReducerE.mk ([] : List (Nat × Nat)) (fun _ : Nat => Except.error (PyErr.custom 7))
        (fun acc it : Nat => Except.ok (acc + it)) (fun _ => Except.ok 0)) 4).1
      (PyErr.custom 7) rfl
  · exact (((c5_amended_propagation
      (GroupingReducerE.mk ([] : List (Nat × Nat)) (fun n : Nat => Except.ok n)
        (fun _ _ : Nat => Except.error (PyErr.custom 3)) (fun _ => Except.ok 0)) 4).2.1
      4 rfl rfl).2) 0 (PyErr.custom 3) rfl rfl

theorem dictLookup_eq_none_iff {GK RV : Type} [DecidableEq GK] (d : List (GK × RV)) (k : GK) :
    dictLookup d k = none ↔ k ∉ keysOf d := by
  induction d with
  | nil => simp [dictLookup, keysOf]
  | cons p rest ih =>
    simp only [keysOf, List.map_cons, List.mem_cons]
    by_cases hp : p.1 = k
    · simp [dictLookup, hp]
    · have hk : ¬ k = p.1 := fun h => hp h.symm
      simp only [dictLookup, hp, if_neg, not_false_iff]
      rw [ih]
      simp [keysOf, hk]

theorem mem_of_dictLookup_eq_some {GK RV : Type} [DecidableEq GK] {d : List (GK × RV)}
    {k : GK} {v : RV} (h : dictLookup d k = some v) : (k, v) ∈ d := by
  induction d with
  | nil => simp [dictLookup] at h
  | cons p rest ih =>
    by_cases hp : p.1 = k
    · simp only [dictLookup, hp, if_pos, Option.some.injEq] at h
      exact List.mem_cons.mpr (Or.inl (by rw [Prod.ext_iff]; exact ⟨hp.symm, h.symm⟩))
    · simp only [dictLookup, hp, if_neg, not_false_iff] at h
      exact List.mem_cons_of_mem _ (ih h)

theorem dictLookup_eq_some_of_mem {GK RV : Type} [DecidableEq GK] {d : List (GK × RV)}
    (hnd : (keysOf d).Nodup) {k : GK} {v : RV} (hmem : (k, v) ∈ d) :
    dictLookup d k = some v := by
  induction d with
  | nil => cases hmem
  | cons p rest ih =>
    obtain ⟨hhd, htl⟩ := List.nodup_cons.mp (show (p.1 :: keysOf rest).Nodup from hnd)
    rcases List.mem_cons.mp hmem with h | h
    · rw [← h]
      simp [dictLookup]
    · have hkmem : k ∈ keysOf rest := List.mem_map.mpr ⟨(k, v), h, rfl⟩
      by_cases hp : p.1 = k
      · exact absurd (hp ▸ hkmem) hhd
      · simp only [dictLookup, hp, if_neg, not_false_iff]
        exact ih htl h

/-- Python `dict.__eq__` on the association-list model: the dicts have the
same number of entries and every entry of the left one is bound, with the
same value, in the right one. -/
def dictBeq {GK RV : Type} [DecidableEq GK] [DecidableEq RV] (d1 d2 : List (GK × RV)) : Bool :=
  decide (d1.length = d2.length) &&
    d1.all fun p => decide (dictLookup d2 p.1 = some p.2)

/-- Python `dict` equality is extensional equality of the underlying finite maps
(insertion order plays no role), provided each side binds every key at most
once — which every actual `dict` does. -/
theorem dictBeq_iff {GK RV : Type} [DecidableEq GK] [DecidableEq RV] (d1 d2 : List (GK × RV))
    (h1 : (keysOf d1).Nodup) (h2 : (keysOf d2).Nodup) :
    dictBeq d1 d2 = true ↔ ∀ k, dictLookup d1 k = dictLookup d2 k := by
  constructor
  · intro h
    simp only [dictBeq, Bool.and_eq_true, decide_eq_true_eq, List.all_eq_true] at h
    obtain ⟨hlen, hall⟩ := h
    have hsub : keysOf d1 ⊆ keysOf d2 := by
      intro k hk
      obtain ⟨p, hp, hpk⟩ := List.mem_map.mp hk
      have := hall p hp
      rw [hpk] at this
      have hns : dictLookup d2 k ≠ none := by rw [this]; exact Option.some_ne_none _
      by_contra hq
      exact hns ((dictLookup_eq_none_iff d2 k).mpr hq)
    have hperm : List.Perm (keysOf d1) (keysOf d2) :=
      (h1.subperm hsub).perm_of_length_le
        (by simp only [keysOf, List.length_map]; omega)
    intro k
    by_cases hk : k ∈ keysOf d1
    · obtain ⟨p, hp, hpk⟩ := List.mem_map.mp hk
      have heq1 : dictLookup d1 k = some p.2 :=
        dictLookup_eq_some_of_mem h1 (by rw [← hpk]; simpa using hp)
      have heq2 := hall p hp
      rw [hpk] at heq2
      rw [heq1, heq2]
    · have hk2 : k ∉ keysOf d2 := fun h => hk (hperm.mem_iff.mpr h)
      rw [(dictLookup_eq_none_iff d1 k).mpr hk, (dictLookup_eq_none_iff d2 k).mpr hk2]
  · intro h
    have hsub : keysOf d1 ⊆ keysOf d2 := by
      intro k hk
      by_contra hq
      have := (dictLookup_eq_none_iff d2 k).mpr hq
      rw [← h k, dictLookup_eq_none_iff] at this
      exact this hk
    have hsub2 : keysOf d2 ⊆ keysOf d1 := by
      intro k hk
      by_contra hq
      have := (dictLookup_eq_none_iff d1 k).mpr hq
      rw [h k, dictLookup_eq_none_iff] at this
      exact this hk
    have hperm : List.Perm (keysOf d1) (keysOf d2) :=
      (h1.subperm hsub).antisymm (h2.subperm hsub2)
    simp only [dictBeq, Bool.and_eq_true, decide_eq_true_eq, List.all_eq_true]
    constructor
    · have := hperm.length_eq
      simpa [keysOf] using this
    · intro p hp
      have : dictLookup d1 p.1 = some p.2 := dictLookup_eq_some_of_mem h1 (by simpa using hp)
      rw [← h p.1]
      exact this

namespace GroupingReducer

/-- Embedding of `GroupingReducer.__eq__` against a plain mapping (lines 161–162):
`return self.data == other` — only `data` participates, the configuration
functions do not. -/
def eqMap {Orig GK RV : Type} [DecidableEq GK] [DecidableEq RV]
    (g : GroupingReducer Orig GK RV) (other : List (GK × RV)) : Bool :=
  dictBeq g.data other

/-- Comparison `g1 == g2` between two `GroupingReducer`s: `g1.__eq__(g2)` evaluates
`g1.data == g2`; `dict.__eq__` returns `NotImplemented` on a non-`dict`, so
Python falls back to the reflected `g2.__eq__(g1.data)`, which evaluates
`g2.data == g1.data` — a genuine `dict` comparison. -/
def eqGR {Orig GK RV : Type} [DecidableEq GK] [DecidableEq RV]
    (g1 g2 : GroupingReducer Orig GK RV) : Bool :=
  dictBeq g2.data g1.data

/-- Embedding of `GroupingReducer.__ne__` against a plain mapping (lines 164–165):
`return self.data != other`. -/
def neMap {Orig GK RV : Type} [DecidableEq GK] [DecidableEq RV]
    (g : GroupingReducer Orig GK RV) (other : List (GK × RV)) : Bool :=
  !(dictBeq g.data other)

/-- Comparison `g1 != g2` between two `GroupingReducer`s, by the same reflected-operand
fallback as `eqGR`. -/
def neGR {Orig GK RV : Type} [DecidableEq GK] [DecidableEq RV]
    (g1 g2 : GroupingReducer Orig GK RV) : Bool :=
  !(dictBeq g2.data g1.data)

end GroupingReducer

/-- C9: for containers whose dicts bind each key once (as every actual `dict`
does), `==` between two `GroupingReducer`s, and between a `GroupingReducer`
and a plain mapping, holds exactly when the key-to-value mappings are
extensionally equal; `!=` is the exact negation of `==`; and the
configuration functions play no role — replacing them on both sides leaves
the comparison unchanged. -/
theorem c9_equality_is_data_equality {Orig GK RV : Type} [DecidableEq GK] [DecidableEq RV]
    (g1 g2 : GroupingReducer Orig GK RV) (d : List (GK × RV))
    (h1 : (keysOf g1.data).Nodup) (h2 : (keysOf g2.data).Nodup)
    (hd : (keysOf d).Nodup) :
    (g1.eqGR g2 = true ↔ ∀ k, dictLookup g1.data k = dictLookup g2.data k)
    ∧ (g1.eqMap d = true ↔ ∀ k, dictLookup g1.data k = dictLookup d k)
    ∧ g1.neGR g2 = !(g1.eqGR g2)
    ∧ g1.neMap d = !(g1.eqMap d)
    ∧ (∀ (f f' : Orig → GK) (r r' : RV → Orig → RV) (s s' : Unit → RV),
        (GroupingReducer.mk g1.data f r s).eqGR (GroupingReducer.mk g2.data f' r' s')
          = g1.eqGR g2) := by
  refine ⟨?_, dictBeq_iff g1.data d h1 hd, rfl, rfl, fun _ _ _ _ _ _ => rfl⟩
  rw [GroupingReducer.eqGR, dictBeq_iff g2.data g1.data h2 h1]
  constructor
  · intro h k
    exact (h k).symm
  · intro h k
    exact (h k).symm

/-- Witness for C9 at concrete containers: two sum-groupers built from
different insertion orders of the same multiset compare equal, and `!=` is
the negation of `==`. -/
theorem c9_equality_witness :
    (GroupingReducer.construct (fun n : Nat => n % 2) (fun a b => a + b)
        (fun _ => 0) [1, 2, 3]).eqGR
      (GroupingReducer.construct (fun n : Nat => n % 2) (fun a b => a + b)
        (fun _ => 0) [2, 1, 3]) = true
    ∧ (GroupingReducer.construct (fun n : Nat => n % 2) (fun a b => a + b)
        (fun _ => 0) [1, 2, 3]).neGR
      (GroupingReducer.construct (fun n : Nat => n % 2) (fun a b => a + b)
        (fun _ => 0) [2, 1, 3])
      = !((GroupingReducer.construct (fun n : Nat => n % 2) (fun a b => a + b)
        (fun _ => 0) [1, 2, 3]).eqGR
      (GroupingReducer.construct (fun n : Nat => n % 2) (fun a b => a + b)
        (fun _ => 0) [2, 1, 3])) := by
  constructor
  · decide
  · exact (c9_equality_is_data_equality
      (GroupingReducer.construct (fun n : Nat => n % 2) (fun a b => a + b)
        (fun _ => 0) [1, 2, 3])
      (GroupingReducer.construct (fun n : Nat => n % 2) (fun a b => a + b)
        (fun _ => 0) [2, 1, 3])
      [] (by decide) (by decide) (by decide)).2.2.1

/-- A heap of Python list objects: an address is an index into `cells`. All
reads we reason about are of allocated addresses; reading an unallocated
address yields `[]` in the model. -/
structure Heap (α : Type) where
  cells : List (List α)

def Heap.read {α : Type} (h : Heap α) (a : Nat) : List α := h.cells.getD a []

def Heap.write {α : Type} (h : Heap α) (a : Nat) (l : List α) : Heap α := ⟨h.cells.set a l⟩

def Heap.alloc {α : Type} (h : Heap α) (l : List α) : Heap α × Nat :=
  (⟨h.cells ++ [l]⟩, h.cells.length)

/-- The default `starter`, `list`: allocate a fresh empty list object. -/
def starterList {α : Type} (h : Heap α) : Heap α × Nat := h.alloc []

/-- Embedding of `addToList` (lines 9–14): `acc.append(item); return acc` — mutates the
accumulator list object in place and returns the same object. -/
def addToList {α : Type} (h : Heap α) (acc : Nat) (item : α) : Heap α × Nat :=
  (h.write acc (h.read acc ++ [item]), acc)

/-- A default-configuration `GroupingReducer`
(`groupBy=identity`, `reducer=addToList`, `starter=list`): `data` maps each
key — the item itself — to the address of its accumulator list object. -/
structure GrouperD (α : Type) where
  data : List (α × Nat)

/-- Embedding of `add(item)` under the default configuration, on the heap model: the
present-key branch runs `addToList` on the stored accumulator object
(mutating it in place and rebinding the slot to the same address); the
absent-key branch allocates a fresh empty list with `list()` and appends
`item` to it. -/
def GrouperD.add {α : Type} [DecidableEq α] (h : Heap α) (g : GrouperD α) (item : α) :
    Heap α × GrouperD α :=
  match dictLookup g.data item with
  | some addr =>
    let ha := addToList h addr item
    (ha.1, ⟨dictSet g.data item ha.2⟩)
  | none =>
    let hs := starterList h
    let ha := addToList hs.1 hs.2 item
    (ha.1, ⟨dictSet g.data item ha.2⟩)

def GrouperD.addAll {α : Type} [DecidableEq α] (h : Heap α) (g : GrouperD α) :
    List α → Heap α × GrouperD α
  | [] => (h, g)
  | item :: items =>
    let hg := GrouperD.add h g item
    GrouperD.addAll hg.1 hg.2 items

/-- Embedding of `__init__` with the `initialValues` argument omitted: the parameter is
bound to the module's single definition-time default list object, which lives
at `defaultAddr`; `self.data = dict()`, then `self.addAll(initialValues)`
iterates that shared object's current contents. -/
def GrouperD.initDefault {α : Type} [DecidableEq α] (h : Heap α) (defaultAddr : Nat) :
    Heap α × GrouperD α :=
  GrouperD.addAll h ⟨[]⟩ (h.read defaultAddr)

/-- Embedding of `currentData` (lines 114–116): `self.data.copy()` — a fresh dict with the
same key-to-object bindings; the bindings are copied, the list objects are
shared (a shallow copy). -/
def GrouperD.currentData {α : Type} (g : GrouperD α) : List (α × Nat) := g.data

/-- What a caller observes at key `k` of a mapping of list objects: the
binding dereferenced through the heap. -/
def deepAt {α : Type} [DecidableEq α] (h : Heap α) (d : List (α × Nat)) (k : α) :
    Option (List α) :=
  (dictLookup d k).map fun a => h.read a

theorem Heap.length_write {α : Type} (h : Heap α) (a : Nat) (l : List α) :
    (h.write a l).cells.length = h.cells.length := by
  simp [write]

theorem Heap.read_write_self {α : Type} (h : Heap α) (a : Nat) (l : List α)
    (ha : a < h.cells.length) : (h.write a l).read a = l := by
  simp [read, write, List.getD, List.getElem?_set_eq_of_lt _ ha]

theorem Heap.read_write_ne {α : Type} (h : Heap α) (a b : Nat) (l : List α)
    (hab : a ≠ b) : (h.write a l).read b = h.read b := by
  simp [read, write, List.getD, List.getElem?_set_ne hab]

theorem Heap.read_alloc_lt {α : Type} (h : Heap α) (l : List α) (b : Nat)
    (hb : b < h.cells.length) : (h.alloc l).1.read b = h.read b := by
  simp [read, alloc, List.getD, List.getElem?_append, hb]

theorem Heap.read_alloc_self {α : Type} (h : Heap α) (l : List α) :
    (h.alloc l).1.read (h.alloc l).2 = l := by
  simp [read, alloc, List.getD, List.getElem?_concat_length]

theorem mem_dictSet {GK RV : Type} [DecidableEq GK] {d : List (GK × RV)} {key : GK} {v : RV}
    {p : GK × RV} (hp : p ∈ dictSet d key v) : p ∈ d ∨ p = (key, v) := by
  induction d with
  | nil =>
    right
    simpa [dictSet] using hp
  | cons q rest ih =>
    by_cases hq : q.1 = key
    · simp only [dictSet, hq, if_pos, List.mem_cons] at hp
      rcases hp with h | h
      · right; exact h
      · left; exact List.mem_cons_of_mem _ h
    · simp only [dictSet, hq, if_neg, not_false_iff, List.mem_cons] at hp
      rcases hp with h | h
      · left; exact List.mem_cons.mpr (Or.inl h)
      · rcases ih h with h' | h'
        · left; exact List.mem_cons_of_mem _ h'
        · right; exact h'

/-- C6 counterexample: on a fresh default-configuration container, add the
item `1`, take the snapshot with `currentData`, then `add(1)` again on the
original container.  The snapshot's binding for key `1` is untouched, but the
list object it shares with the container has been mutated in place by
`addToList`, so the contents the snapshot shows at key `1` change from `[1]`
to `[1, 1]` — the snapshot is not unaffected by the subsequent insert. -/
theorem c6_counterexample :
    deepAt (GrouperD.add (Heap.mk [] : Heap Nat) (GrouperD.mk []) 1).1
        (GrouperD.add (Heap.mk [] : Heap Nat) (GrouperD.mk []) 1).2.currentData 1
      = some [1]
    ∧ deepAt (GrouperD.add (GrouperD.add (Heap.mk [] : Heap Nat) (GrouperD.mk []) 1).1
          (GrouperD.add (Heap.mk [] : Heap Nat) (GrouperD.mk []) 1).2 1).1
        (GrouperD.add (Heap.mk [] : Heap Nat) (GrouperD.mk []) 1).2.currentData 1
      = some [1, 1]
    ∧ (some [1, 1] : Option (List Nat)) ≠ some [1] := by
  exact ⟨rfl, rfl, by decide⟩

/-- C6 amended: a `currentData` snapshot's key-to-object bindings are
unaffected by subsequent inserts, and its observed contents are unaffected by
inserts whose key is absent from the container; but an insert on a present
key mutates the shared accumulator object in place (default `addToList`
reducer), changing what both the snapshot and the live view observe at that
key to the old contents with the item appended; the live `data` view reflects
every insert. -/
theorem c6_snapshot_amended {α : Type} [DecidableEq α] (h : Heap α) (g : GrouperD α) (item : α)
    (hval : ∀ p ∈ g.data, p.2 < h.cells.length) :
    (dictLookup g.data item = none →
        (∀ k, deepAt (GrouperD.add h g item).1 g.currentData k = deepAt h g.currentData k)
        ∧ deepAt (GrouperD.add h g item).1 (GrouperD.add h g item).2.data item
            = some [item])
    ∧ (∀ addr, dictLookup g.data item = some addr →
        deepAt (GrouperD.add h g item).1 (GrouperD.add h g item).2.data item
            = some (h.read addr ++ [item])
        ∧ deepAt (GrouperD.add h g item).1 g.currentData item
            = some (h.read addr ++ [item]))
    ∧ (∀ k, k ≠ item →
        dictLookup (GrouperD.add h g item).2.data k = dictLookup g.data k) := by
  refine ⟨?_, ?_, ?_⟩
  · intro habs
    constructor
    · intro k
      simp only [GrouperD.add, habs, starterList, addToList, GrouperD.currentData, deepAt]
      cases hk : dictLookup g.data k with
      | none => rfl
      | some a =>
        have ha : a < h.cells.length := hval _ (mem_of_dictLookup_eq_some hk)
        have hne : (h.alloc []).2 ≠ a := by
          simp only [Heap.alloc]
          omega
        simp only [Option.map_some']
        rw [Heap.read_write_ne _ _ _ _ hne, Heap.read_alloc_lt _ _ _ ha]
    · simp only [GrouperD.add, habs, starterList, addToList, deepAt,
        dictLookup_dictSet, Heap.read_alloc_self, if_pos, Option.map_some']
      rw [Heap.read_write_self]
      · simp
      · simp [Heap.alloc]
  · intro addr hsome
    have ha : addr < h.cells.length := hval _ (mem_of_dictLookup_eq_some hsome)
    constructor
    · simp only [GrouperD.add, hsome, addToList, deepAt, dictLookup_dictSet,
        if_true, ite_self, Option.map_some']
      rw [Heap.read_write_self _ _ _ ha]
    · simp only [GrouperD.add, hsome, addToList, GrouperD.currentData, deepAt,
        Option.map_some']
      rw [Heap.read_write_self _ _ _ ha]
  · intro k hk
    have hik : ¬ item = k := fun he => hk he.symm
    cases hcase : dictLookup g.data item with
    | some addr =>
      simp [GrouperD.add, hcase, addToList, dictLookup_dictSet, hik]
    | none =>
      simp [GrouperD.add, hcase, starterList, addToList, dictLookup_dictSet, hik]

/-- Witness for the amended C6: on the concrete one-element container of the
counterexample, inserting the absent key `2` leaves the snapshot's view of
key `1` at `[1]`, and inserting the present key `1` appends through the
shared object, the live view showing `[1, 1]`. -/
theorem c6_snapshot_amended_witness :
    deepAt (GrouperD.add (Heap.mk [[1]] : Heap Nat) (GrouperD.mk [(1, 0)]) 2).1
        (GrouperD.mk [(1, 0)] : GrouperD Nat).currentData 1 = some [1]
    ∧ deepAt (GrouperD.add (Heap.mk [[1]] : Heap Nat) (GrouperD.mk [(1, 0)]) 1).1
        (GrouperD.add (Heap.mk [[1]] : Heap Nat) (GrouperD.mk [(1, 0)]) 1).2.data 1
      = some [1, 1] := by
  constructor
  · exact ((c6_snapshot_amended (Heap.mk [[1]] : Heap Nat) (GrouperD.mk [(1, 0)]) 2
      (by decide)).1 (by decide)).1 1
  · exact ((c6_snapshot_amended (Heap.mk [[1]] : Heap Nat) (GrouperD.mk [(1, 0)]) 1
      (by decide)).2.1 0 (by decide)).1

/-- The freshness invariant tying a container to the module's shared default
list object at `defaultAddr`: the default object is allocated, and no
accumulator slot of the container aliases it.  It holds for every container
the class can actually build: slots only ever receive fresh `list()`
allocations. -/
def FreshFor {α : Type} (defaultAddr : Nat) (h : Heap α) (g : GrouperD α) : Prop :=
  defaultAddr < h.cells.length ∧ ∀ p ∈ g.data, p.2 ≠ defaultAddr

theorem GrouperD.add_preserves_default {α : Type} [DecidableEq α] (h : Heap α)
    (g : GrouperD α) (item : α) (defaultAddr : Nat)
    (hfresh : FreshFor defaultAddr h g) :
    (GrouperD.add h g item).1.read defaultAddr = h.read defaultAddr
    ∧ FreshFor defaultAddr (GrouperD.add h g item).1 (GrouperD.add h g item).2 := by
  obtain ⟨hlt, hslots⟩ := hfresh
  cases hcase : dictLookup g.data item with
  | some addr =>
    have haddr : addr ≠ defaultAddr := hslots _ (mem_of_dictLookup_eq_some hcase)
    refine ⟨?_, ?_, ?_⟩
    · simp only [GrouperD.add, hcase, addToList]
      exact Heap.read_write_ne _ _ _ _ haddr
    · simpa [GrouperD.add, hcase, addToList, Heap.length_write] using hlt
    · intro p hp
      simp only [GrouperD.add, hcase, addToList] at hp
      rcases mem_dictSet hp with h' | h'
      · exact hslots _ h'
      · rw [h']; exact haddr
  | none =>
    have hs_ne : (h.alloc ([] : List α)).2 ≠ defaultAddr := by
      simp only [Heap.alloc]
      omega
    refine ⟨?_, ?_, ?_⟩
    · simp only [GrouperD.add, hcase, starterList, addToList]
      rw [Heap.read_write_ne _ _ _ _ hs_ne, Heap.read_alloc_lt _ _ _ hlt]
    · simp only [GrouperD.add, hcase, starterList, addToList, Heap.length_write,
        Heap.alloc, List.length_append]
      omega
    · intro p hp
      simp only [GrouperD.add, hcase, starterList, addToList] at hp
      rcases mem_dictSet hp with h' | h'
      · exact hslots _ h'
      · rw [h']; exact hs_ne

theorem GrouperD.addAll_preserves_default {α : Type} [DecidableEq α] (items : List α) :
    ∀ (h : Heap α) (g : GrouperD α) (defaultAddr : Nat), FreshFor defaultAddr h g →
    (GrouperD.addAll h g items).1.read defaultAddr = h.read defaultAddr
    ∧ FreshFor defaultAddr (GrouperD.addAll h g items).1 (GrouperD.addAll h g items).2 := by
  induction items with
  | nil => exact fun h g d hf => ⟨rfl, hf⟩
  | cons it rest ih =>
    intro h g d hf
    obtain ⟨hread, hf'⟩ := GrouperD.add_preserves_default h g it d hf
    obtain ⟨hread', hf''⟩ := ih (GrouperD.add h g it).1 (GrouperD.add h g it).2 d hf'
    have hstep : GrouperD.addAll h g (it :: rest)
        = GrouperD.addAll (GrouperD.add h g it).1 (GrouperD.add h g it).2 rest := rfl
    rw [hstep]
    exact ⟨hread'.trans hread, hf''⟩

/-- C10: the shared definition-time default `initialValues=[]` list is never
mutated.  From any world (heap plus an existing container satisfying the
freshness invariant) whose default object holds `[]`, any sequence of inserts
into the existing container leaves the default object holding `[]`, so a
construction that omits the initial-items argument still starts with an
empty mapping; the invariant is preserved for both containers, so this holds
across arbitrarily many constructions and inserts. -/
theorem c10_default_not_mutated {α : Type} [DecidableEq α] (h : Heap α) (g : GrouperD α)
    (items : List α) (defaultAddr : Nat)
    (hfresh : FreshFor defaultAddr h g) (hdef : h.read defaultAddr = []) :
    (GrouperD.addAll h g items).1.read defaultAddr = []
    ∧ (GrouperD.initDefault (GrouperD.addAll h g items).1 defaultAddr).2.data = []
    ∧ FreshFor defaultAddr (GrouperD.addAll h g items).1 (GrouperD.addAll h g items).2
    ∧ FreshFor defaultAddr (GrouperD.initDefault (GrouperD.addAll h g items).1 defaultAddr).1
        (GrouperD.initDefault (GrouperD.addAll h g items).1 defaultAddr).2 := by
  obtain ⟨hread, hf⟩ := GrouperD.addAll_preserves_default items h g defaultAddr hfresh
  have h0 : (GrouperD.addAll h g items).1.read defaultAddr = [] := hread.trans hdef
  refine ⟨h0, ?_, hf, ?_⟩
  · simp [GrouperD.initDefault, h0, GrouperD.addAll]
  · refine ⟨?_, ?_⟩
    · simpa [GrouperD.initDefault, h0, GrouperD.addAll] using hf.1
    · intro p hp
      simp [GrouperD.initDefault, h0, GrouperD.addAll] at hp

/-- Witness for C10 at a concrete world: default object at address 0, a
container that absorbs `[5, 5, 7]`; the default object still holds `[]` and a
default construction afterwards starts empty. -/
theorem c10_default_not_mutated_witness :
    (GrouperD.addAll (Heap.mk [[]] : Heap Nat) (GrouperD.mk []) [5, 5, 7]).1.read 0 = []
    ∧ (GrouperD.initDefault
        (GrouperD.addAll (Heap.mk [[]] : Heap Nat) (GrouperD.mk []) [5, 5, 7]).1 0).2.data
      = [] := by
  have happ := c10_default_not_mutated (Heap.mk [[]] : Heap Nat) (GrouperD.mk [])
    [5, 5, 7] 0 ⟨by decide, by decide⟩ (by decide)
  exact ⟨happ.1, happ.2.1⟩
